import Mathlib

/-!
# Verification of the keiranhost backend (src/backend/main.py)

This file gives a shallow embedding of the core of the ephemeral
file-hosting backend: the chunk-upload session tracker, the chunk
assembler (`complete_upload`), short-identifier allocation
(`generate_short_id`), the metadata record lifecycle (`save_metadata` /
`load_metadata` with `DateTimeEncoder` / `DateTimeDecoder`), retrieval
(`get_file`) and the expiry reaper (`cleanup_expired_files`).

Python dictionaries are embedded as association lists that preserve
insertion order (as Python dicts do); the process-wide mutable globals
(`chunk_tracking`, `file_metadata`, the `uploads/` and `chunks/`
directories) become an explicit state record threaded through the
handlers.  Instants of time (`datetime.now()` values used only for
ordering comparisons and `timedelta` arithmetic) are embedded as natural
numbers counting microseconds; calendar datetimes (needed for the
ISO-8601 serialisation round trip) are embedded componentwise.
-/

set_option maxHeartbeats 1000000

namespace KeiranHost

/-! ## Association lists with Python-dict semantics

`alookup` finds the first binding of a key, `ainsert` overwrites a
binding in place or appends a new one at the end (Python dicts preserve
insertion order), `aerase` removes a key (`del`). -/

variable {α : Type _} {β : Type _} [DecidableEq α]

def alookup : List (α × β) → α → Option β
  | [], _ => none
  | (k, v) :: t, a => if a = k then some v else alookup t a

def ainsert : List (α × β) → α → β → List (α × β)
  | [], k, v => [(k, v)]
  | (k', v') :: t, k, v => if k = k' then (k, v) :: t else (k', v') :: ainsert t k v

def aerase (l : List (α × β)) (k : α) : List (α × β) :=
  l.filter (fun kv => decide (kv.1 ≠ k))

@[simp] theorem alookup_nil (a : α) : alookup ([] : List (α × β)) a = none := rfl

@[simp] theorem alookup_cons (k : α) (v : β) (t : List (α × β)) (a : α) :
    alookup ((k, v) :: t) a = if a = k then some v else alookup t a := rfl

theorem alookup_ainsert_self (l : List (α × β)) (k : α) (v : β) :
    alookup (ainsert l k v) k = some v := by
  induction l with
  | nil => simp [ainsert]
  | cons kv t ih =>
    obtain ⟨k', v'⟩ := kv
    by_cases h : k = k'
    · subst h; simp [ainsert]
    · simp [ainsert, h, ih]

theorem alookup_ainsert_ne (l : List (α × β)) (k : α) (v : β) (a : α) (h : a ≠ k) :
    alookup (ainsert l k v) a = alookup l a := by
  induction l with
  | nil => simp [ainsert, h]
  | cons kv t ih =>
    obtain ⟨k', v'⟩ := kv
    by_cases hk : k = k'
    · subst hk; simp [ainsert, h]
    · by_cases ha : a = k'
      · subst ha; simp [ainsert, hk]
      · simp [ainsert, hk, ha, ih]

@[simp] theorem aerase_nil (k : α) : aerase ([] : List (α × β)) k = [] := rfl

theorem aerase_cons (k' : α) (v' : β) (t : List (α × β)) (k : α) :
    aerase ((k', v') :: t) k =
      if k' = k then aerase t k else (k', v') :: aerase t k := by
  by_cases h : k' = k <;> simp [aerase, List.filter_cons, h]

theorem alookup_aerase_self (l : List (α × β)) (k : α) :
    alookup (aerase l k) k = none := by
  induction l with
  | nil => rfl
  | cons kv t ih =>
    obtain ⟨k', v'⟩ := kv
    rw [aerase_cons]
    by_cases h : k' = k
    · simpa [h] using ih
    · simp [h, Ne.symm h, ih]

theorem alookup_aerase_ne (l : List (α × β)) (k a : α) (h : a ≠ k) :
    alookup (aerase l k) a = alookup l a := by
  induction l with
  | nil => rfl
  | cons kv t ih =>
    obtain ⟨k', v'⟩ := kv
    rw [aerase_cons]
    by_cases hk : k' = k
    · subst hk; simp [h, ih]
    · by_cases ha : a = k'
      · subst ha; simp [hk]
      · simp [hk, ha, ih]

theorem alookup_aerase_of_none (l : List (α × β)) (k a : α)
    (h : alookup l a = none) : alookup (aerase l k) a = none := by
  by_cases hk : a = k
  · subst hk; exact alookup_aerase_self l a
  · rw [alookup_aerase_ne l k a hk]; exact h

theorem mem_of_mem_aerase {l : List (α × β)} {k : α} {kv : α × β}
    (h : kv ∈ aerase l k) : kv ∈ l :=
  List.mem_of_mem_filter h

theorem alookup_isSome_of_mem {l : List (α × β)} {k : α} {v : β}
    (h : (k, v) ∈ l) : (alookup l k).isSome := by
  induction l with
  | nil => simp at h
  | cons kv t ih =>
    obtain ⟨k', v'⟩ := kv
    rcases List.mem_cons.mp h with h1 | h2
    · cases h1; simp
    · by_cases hk : k = k'
      · simp [hk]
      · simp [hk, ih h2]

theorem ainsert_of_none (l : List (α × β)) (k : α) (v : β)
    (h : alookup l k = none) : ainsert l k v = l ++ [(k, v)] := by
  induction l with
  | nil => rfl
  | cons kv t ih =>
    obtain ⟨k', v'⟩ := kv
    by_cases hk : k = k'
    · subst hk; simp at h
    · simp only [alookup_cons, if_neg hk] at h
      simp [ainsert, hk, ih h]

theorem alookup_append (l₁ l₂ : List (α × β)) (a : α) :
    alookup (l₁ ++ l₂) a =
      match alookup l₁ a with
      | some v => some v
      | none => alookup l₂ a := by
  induction l₁ with
  | nil => simp
  | cons kv t ih =>
    obtain ⟨k', v'⟩ := kv
    by_cases h : a = k'
    · simp [h]
    · simp [h, ih]

/-! ## String helpers

Embeddings of the Python string/`pathlib` operations the backend uses:
`Path(name).suffix.lower()`, the substring test `needle in haystack`,
`str.split('.')[0]`, and the `str(...)` representation of a
`Dict[int, Path]` (which `upload_chunk` scans for session lookup). -/

/-- `a` is a leading segment of `b` (used by the substring test). -/
def leadsCh : List Char → List Char → Bool
  | [], _ => true
  | _ :: _, [] => false
  | a :: p, b :: s => a = b && leadsCh p s

/-- Python's substring test `p in s` on character lists. -/
def substrCh : List Char → List Char → Bool
  | p, [] => p.isEmpty
  | p, s@(_ :: t) => leadsCh p s || substrCh p t

/-- Python's `needle in haystack` for strings. -/
def strContains (needle hay : String) : Bool :=
  substrCh needle.toList hay.toList

/-- The final path component: the characters after the last `/`
(`pathlib.PurePath.name` for the file names the service receives). -/
def lastCompCh (s : List Char) : List Char :=
  (s.reverse.takeWhile (fun c => c != '/')).reverse

/-- `pathlib.PurePath.suffix` on the final component: the part of the
name from its last dot onward, empty when there is no dot, when the only
dot is the leading character, or when the dot is the final character. -/
def suffixCh (s : List Char) : List Char :=
  let name := lastCompCh s
  let revName := name.reverse
  let afterRev := revName.takeWhile (fun c => c != '.')
  if afterRev.length = revName.length then []
  else if revName.drop (afterRev.length + 1) = [] then []
  else if afterRev = [] then []
  else '.' :: afterRev.reverse

/-- `Path(fileName).suffix.lower()` as used at the top of `upload_chunk`
and in `complete_upload`. -/
def suffixLower (fileName : String) : String :=
  String.mk ((suffixCh fileName.toList).map Char.toLower)

/-- `file_id.split('.')[0]` from `get_file`. -/
def baseIdOf (file_id : String) : String :=
  String.mk (file_id.toList.takeWhile (fun c => c != '.'))

/-- `repr` of a `pathlib.PosixPath` value, as it appears inside
`str(chunk_tracking[k])`. -/
def reprPath (p : String) : String :=
  "PosixPath('" ++ p ++ "')"

/-- `str(v)` for `v : Dict[int, Path]`: the Python dict repr that
`upload_chunk` scans for the raw file name when `chunkIndex > 0`. -/
def reprChunkDict (v : List (Nat × String)) : String :=
  "\x7b" ++ String.intercalate ", "
    (v.map (fun kv => Nat.repr kv.1 ++ ": " ++ reprPath kv.2)) ++ "\x7d"

/-! ## Constants and data model -/

/-- Chunk/file contents as byte lists. -/
abbrev Bytes := List Nat

/-- `ALLOWED_EXTENSIONS` from main.py (a set; embedded as a list, only
membership is used). -/
def ALLOWED_EXTENSIONS : List String :=
  [".png", ".jpg", ".jpeg", ".gif", ".mp4", ".webm", ".pdf"]

/-- `timedelta(hours=24)` in microseconds (instants of time are
microsecond counts). -/
def hours24 : Nat := 24 * 3600 * 1000000

/-- `timedelta(hours=1)` in microseconds. -/
def hours1 : Nat := 3600 * 1000000

/-- The error taxonomy of the HTTP handlers, one constructor per
`HTTPException` raise site in main.py. -/
inductive AppErr where
  /-- 400 "File type not allowed" -/
  | invalidFileType
  /-- 400 "Upload session not found" -/
  | uploadSessionNotFound
  /-- 500 "Failed to save chunk" -/
  | chunkWriteFailed
  /-- 400 "No chunks found" (the `SessionNotFound` failure of `complete`) -/
  | noChunksFound
  /-- 400 "Missing chunks" -/
  | missingChunks
  /-- 500 "Failed to combine chunks" -/
  | assemblyFailed
  /-- 404 "File not found" -/
  | fileNotFound
  /-- 410 "File has expired" -/
  | fileExpired
deriving DecidableEq

/-- The HTTP status code attached to each raise site. -/
def statusOf : AppErr → Nat
  | .invalidFileType => 400
  | .uploadSessionNotFound => 400
  | .chunkWriteFailed => 500
  | .noChunksFound => 400
  | .missingChunks => 400
  | .assemblyFailed => 500
  | .fileNotFound => 404
  | .fileExpired => 410

/-- A `file_metadata` record as built by `complete_upload`.  The two
timestamps are instants in microseconds (`datetime.now()` readings are
totally ordered and shifted by `timedelta`s; that is all the dynamic
code uses them for). -/
structure FileRecordT where
  original_name : String
  mime_type : String
  size : Nat
  human_size : String
  upload_time : Nat
  expiry_time : Nat
  extension : String
deriving DecidableEq

/-- The process-wide mutable state of the backend: the two global dicts
`chunk_tracking` and `file_metadata`, plus the contents of the `chunks/`
and `uploads/` directories (file name → bytes). -/
structure SState where
  chunk_tracking : List (String × List (Nat × String))
  chunkFS : List (String × Bytes)
  uploadFS : List (String × Bytes)
  file_metadata : List (String × FileRecordT)
deriving DecidableEq

/-! ## IdentifierAllocator: `generate_short_id`

The `while True` draw loop is embedded over an explicit stream of random
draws (`random.choices(chars, k=6)` outcomes); the directory test
`(UPLOAD_DIR / short_id).exists()` becomes a lookup of the bare id among
the names in the uploads directory.  `none` means the stream of modelled
draws was exhausted without an accepted candidate. -/

def generate_short_id (uploadFS : List (String × Bytes)) : List String → Option String
  | [] => none
  | c :: rest =>
    if alookup uploadFS c = none then some c
    else generate_short_id uploadFS rest

/-! ## ChunkSessionTracker: `upload_chunk`

The handler is a state transformer returning the (possibly unchanged)
global state together with the HTTP outcome.  `fresh` is the id returned
by the `generate_short_id()` call made when `chunkIndex == 0`; the chunk
body write (`shutil.copyfileobj`) is modelled as always succeeding, so
the 500 `chunkWriteFailed` branch is never taken in the model. -/

structure ChunkArgs where
  chunk : Bytes
  fileName : String
  chunkIndex : Nat
  totalChunks : Nat

def upload_chunk (st : SState) (fresh : String) (a : ChunkArgs) :
    SState × Except AppErr String :=
  let file_ext := suffixLower a.fileName
  if file_ext ∈ ALLOWED_EXTENSIONS then
    let fid? :=
      if a.chunkIndex = 0 then some fresh
      else (st.chunk_tracking.find?
              (fun kv => strContains a.fileName (reprChunkDict kv.2))).map Prod.fst
    match fid? with
    | none => (st, .error .uploadSessionNotFound)
    | some file_id =>
      let chunk_path := "chunks/" ++ file_id ++ "_" ++ Nat.repr a.chunkIndex ++ file_ext
      let fs' := ainsert st.chunkFS chunk_path a.chunk
      let prev := (alookup st.chunk_tracking a.fileName).getD []
      let tr' := ainsert st.chunk_tracking a.fileName (ainsert prev a.chunkIndex chunk_path)
      ({ st with chunk_tracking := tr', chunkFS := fs' }, .ok chunk_path)
  else (st, .error .invalidFileType)

/-! ## Assembler: `complete_upload`

`combineChunks` is the concatenation loop `for i in range(totalChunks)`:
it looks the index up in the tracked dict (a missing index raises
`KeyError`), opens the chunk file (a missing file raises `OSError`),
appends its bytes to the output file and unlinks the chunk file.  It
returns a success flag together with the bytes written to the output
file so far and the remaining chunk directory, so the partial effects of
a failed run are preserved, exactly as an exception leaves them. -/

def combineChunks :
    List Nat → List (Nat × String) → List (String × Bytes) → Bytes →
    Bool × Bytes × List (String × Bytes)
  | [], _, fs, acc => (true, acc, fs)
  | i :: rest, chunks, fs, acc =>
    match alookup chunks i with
    | none => (false, acc, fs)
    | some p =>
      match alookup fs p with
      | none => (false, acc, fs)
      | some data => combineChunks rest chunks (aerase fs p) (acc ++ data)

/-- `complete_upload`.  `fresh` is the result of the `generate_short_id()`
call; `t1` and `t2` are the two successive `datetime.now()` readings used
for `upload_time` and for `expiry_time`; `mime` and `human` are the
outputs of the external `magic.from_file` and `humanize.naturalsize`
calls on the assembled object. -/
def complete_upload (st : SState) (fresh : String) (t1 t2 : Nat)
    (mime human : String) (fileName : String) (totalChunks : Nat) :
    SState × Except AppErr String :=
  match alookup st.chunk_tracking fileName with
  | none => (st, .error .noChunksFound)
  | some chunks =>
    if chunks.length ≠ totalChunks then (st, .error .missingChunks)
    else
      let file_ext := suffixLower fileName
      let outName := fresh ++ file_ext
      let res := combineChunks (List.range totalChunks) chunks st.chunkFS []
      if res.1 then
        ({ chunk_tracking := aerase st.chunk_tracking fileName,
           chunkFS := res.2.2,
           uploadFS := ainsert st.uploadFS outName res.2.1,
           file_metadata := ainsert st.file_metadata fresh
             { original_name := fileName, mime_type := mime,
               size := res.2.1.length, human_size := human,
               upload_time := t1, expiry_time := t2 + hours24,
               extension := file_ext } },
         .ok fresh)
      else
        ({ st with chunkFS := res.2.2,
                   uploadFS := ainsert st.uploadFS outName res.2.1 },
         .error .assemblyFailed)

/-! ## RetrievalGateway: `get_file`

Returns the record and the served bytes on success (whether the handler
then streams them raw or wraps them in the preview page is
presentation). `now` is the `datetime.now()` reading of the expiry
check. -/

def get_file (st : SState) (now : Nat) (file_id : String) :
    Except AppErr (FileRecordT × Bytes) :=
  let base_file_id := baseIdOf file_id
  match alookup st.file_metadata base_file_id with
  | none => .error .fileNotFound
  | some metadata =>
    if now > metadata.expiry_time then .error .fileExpired
    else
      match alookup st.uploadFS (base_file_id ++ metadata.extension) with
      | none => .error .fileNotFound
      | some data => .ok (metadata, data)

/-! ## Claim theorems: allocator, extension gate, completion validation -/

/-- C3: refuted (code bug).  `generate_short_id` tests
`(UPLOAD_DIR / short_id).exists()` — the bare id with no extension —
while stored objects are named `{id}{extension}`.  With the uploads
directory containing the backing object `abc12Z.png`, the single draw
`abc12Z` is accepted, yet a backing stored object for that id exists at
allocation time, violating the claimed guarantee. -/
theorem short_id_collision_bug_eval :
    generate_short_id [("abc12Z.png", ([1] : Bytes))] ["abc12Z"] = some "abc12Z" ∧
    alookup [("abc12Z.png", ([1] : Bytes))] ("abc12Z" ++ ".png") = some [1] := by
  constructor <;> rfl

/-- C2: refuted (code bug).  For `chunkIndex > 0` the handler resolves
the session by scanning `str(v)` of each tracked chunk-path dict for the
raw file name; chunk paths are `chunks/{id}_{i}{ext}` and do not contain
the file name, so the second chunk of an ordinary session
(`photo.png`) fails with 400 "Upload session not found" instead of being
recorded in the session created by chunk 0. -/
theorem session_lookup_bug_eval :
    upload_chunk ⟨[], [], [], []⟩ "Ab3xYz" ⟨[9], "photo.png", 0, 2⟩ =
      (⟨[("photo.png", [(0, "chunks/Ab3xYz_0.png")])],
        [("chunks/Ab3xYz_0.png", [9])], [], []⟩, .ok "chunks/Ab3xYz_0.png") ∧
    upload_chunk
      ⟨[("photo.png", [(0, "chunks/Ab3xYz_0.png")])],
        [("chunks/Ab3xYz_0.png", [9])], [], []⟩ "QqWwEe" ⟨[7], "photo.png", 1, 2⟩ =
      (⟨[("photo.png", [(0, "chunks/Ab3xYz_0.png")])],
        [("chunks/Ab3xYz_0.png", [9])], [], []⟩, .error .uploadSessionNotFound) := by
  constructor <;> rfl

/-- C4: refuted (code bug).  `complete_upload` reads `datetime.now()`
twice: `upload_time` is the first reading and `expiry_time` is the
*second* reading plus 24 hours.  Whenever the two readings differ (here
by one microsecond: `t1 = 0`, `t2 = 1`) the stored record violates
`expiry_time = upload_time + 24h`. -/
theorem expiry_offset_bug_eval :
    (alookup (complete_upload
        ⟨[("a.png", [(0, "p0"), (1, "p1"), (2, "p2")])],
          [("p0", [10]), ("p1", [20, 21]), ("p2", [30])], [], []⟩
        "AbCdEf" 0 1 "image/png" "4 Bytes" "a.png" 3).1.file_metadata
      "AbCdEf").map (fun r => (r.upload_time, r.expiry_time)) =
        some (0, hours24 + 1) ∧
    hours24 + 1 ≠ 0 + hours24 := by
  constructor
  · rfl
  · decide

/-- C7: confirmed.  A chunk upload whose file name's lowercased suffix
is not in `ALLOWED_EXTENSIONS` is rejected with 400 `invalidFileType`
before any session lookup, and the whole process state — in particular
`chunk_tracking` — is returned unchanged, whatever it was. -/
theorem extension_gate_rejects_before_session
    (st : SState) (fresh : String) (a : ChunkArgs)
    (h : suffixLower a.fileName ∉ ALLOWED_EXTENSIONS) :
    upload_chunk st fresh a = (st, .error .invalidFileType) := by
  unfold upload_chunk
  simp [h]

/-- Witness for C7: a chunk named `virus.exe` is rejected with the state
untouched, even with a session already tracked. -/
theorem extension_gate_rejects_before_session_witness :
    suffixLower "virus.exe" ∉ ALLOWED_EXTENSIONS ∧
    upload_chunk ⟨[("a.png", [(0, "p0")])], [("p0", [10])], [], []⟩
        "AbCdEf" ⟨[1], "virus.exe", 1, 2⟩ =
      (⟨[("a.png", [(0, "p0")])], [("p0", [10])], [], []⟩,
        .error .invalidFileType) :=
  ⟨by decide, extension_gate_rejects_before_session _ _ _ (by decide)⟩

/-- C6: confirmed.  `complete_upload` fails with the session-not-found
error (400 "No chunks found") exactly when no session is tracked under
the key, and — when a session is tracked — fails with `missingChunks`
exactly when the tracked dict's entry count differs from `totalChunks`
(Python dict keys are duplicate-free, so the count is the number of
stored chunk indices); contiguity of the indices is not part of the
test. -/
theorem complete_validation_errors
    (st : SState) (fresh : String) (t1 t2 : Nat) (mime human fileName : String)
    (totalChunks : Nat) :
    (alookup st.chunk_tracking fileName = none →
      complete_upload st fresh t1 t2 mime human fileName totalChunks =
        (st, .error .noChunksFound)) ∧
    (∀ chunks, alookup st.chunk_tracking fileName = some chunks →
      ((complete_upload st fresh t1 t2 mime human fileName totalChunks).2 =
          .error .missingChunks ↔ chunks.length ≠ totalChunks)) := by
  constructor
  · intro h
    unfold complete_upload
    rw [h]
  · intro chunks h
    unfold complete_upload
    simp only [h]
    by_cases hl : chunks.length = totalChunks
    · rw [if_neg (not_not_intro hl)]
      simp only [hl, ne_eq, not_true_eq_false, iff_false]
      by_cases hc : (combineChunks (List.range totalChunks) chunks st.chunkFS []).1 = true
      · simp [hc]
      · simp [hc]
    · rw [if_pos hl]
      simp [hl]

/-- Witness for C6: the spec scenario — `totalChunks = 3` with only two
chunks tracked (and, separately, an untracked session) — exercised
through `complete_validation_errors`. -/
theorem complete_validation_errors_witness :
    (complete_upload ⟨[("a.png", [(0, "p0"), (1, "p1")])],
        [("p0", [10]), ("p1", [20])], [], []⟩
        "AbCdEf" 5 6 "image/png" "2 Bytes" "a.png" 3).2 =
      .error .missingChunks ∧
    complete_upload ⟨[], [], [], []⟩ "AbCdEf" 5 6 "m" "h" "b.png" 1 =
      (⟨[], [], [], []⟩, .error .noChunksFound) :=
  ⟨((complete_validation_errors
        ⟨[("a.png", [(0, "p0"), (1, "p1")])], [("p0", [10]), ("p1", [20])], [], []⟩
        "AbCdEf" 5 6 "image/png" "2 Bytes" "a.png" 3).2
      [(0, "p0"), (1, "p1")] rfl).mpr (by decide),
    (complete_validation_errors ⟨[], [], [], []⟩ "AbCdEf" 5 6 "m" "h" "b.png" 1).1 rfl⟩

/-- C10: confirmed.  When concatenation fails partway (the handler
answers 500 `assemblyFailed`), `del chunk_tracking[fileName]` — which
sits after the `try` block — is never reached, so the tracker is
returned exactly as it was: a failed complete removes no tracked
session. -/
theorem failed_assembly_keeps_tracker
    (st : SState) (fresh : String) (t1 t2 : Nat) (mime human fileName : String)
    (totalChunks : Nat)
    (h : (complete_upload st fresh t1 t2 mime human fileName totalChunks).2 =
      .error .assemblyFailed) :
    (complete_upload st fresh t1 t2 mime human fileName totalChunks).1.chunk_tracking =
      st.chunk_tracking := by
  unfold complete_upload at h ⊢
  cases hm : alookup st.chunk_tracking fileName with
  | none => rfl
  | some chunks =>
    simp only [hm] at h ⊢
    by_cases hl : chunks.length = totalChunks
    · rw [if_neg (not_not_intro hl)] at h ⊢
      by_cases hc : (combineChunks (List.range totalChunks) chunks st.chunkFS []).1 = true
      · simp [hc] at h
      · simp [hc]
    · rw [if_pos hl] at h ⊢

/-- Witness for C10: a session tracking indices `{0, 2}` passes the
count check with `totalChunks = 2` but fails assembly at the missing
index 1; its tracker entry survives. -/
theorem failed_assembly_keeps_tracker_witness :
    (complete_upload ⟨[("a.png", [(0, "p0"), (2, "p2")])],
        [("p0", [10]), ("p2", [30])], [], []⟩
        "AbCdEf" 5 6 "m" "h" "a.png" 2).1.chunk_tracking =
      [("a.png", [(0, "p0"), (2, "p2")])] :=
  failed_assembly_keeps_tracker
    ⟨[("a.png", [(0, "p0"), (2, "p2")])], [("p0", [10]), ("p2", [30])], [], []⟩
    "AbCdEf" 5 6 "m" "h" "a.png" 2 rfl

/-! ## Claim theorems: retrieval (`get_file`) -/

/-- C5: counterexample.  The claim's `NotFound` clause ("fails NotFound
when no record *or no backing object* exists") is violated: `get_file`
tests expiry before it tests for the backing object, so a record that is
expired *and* whose backing object is missing yields 410 `Expired`, not
404 `NotFound`. -/
theorem get_file_expired_beats_notfound_cex :
    get_file ⟨[], [], [],
        [("abc", ⟨"a.png", "image/png", 1, "1 Byte", 0, hours24, ".png"⟩)]⟩
        (hours24 + 1) "abc" = .error .fileExpired ∧
    alookup ([] : List (String × Bytes)) ("abc" ++ ".png") = none ∧
    AppErr.fileExpired ≠ AppErr.fileNotFound ∧
    statusOf .fileExpired = 410 := by
  refine ⟨rfl, rfl, by decide, rfl⟩

/-- C5 as amended: `get_file` fails 404 `NotFound` when no record exists
for the base id, **or** when a record exists, is unexpired, and the
backing object is missing; it fails 410 `Expired` exactly when a record
exists and `now > expiry_time` — even if the backing object is already
gone; it succeeds otherwise.  In particular, for a record satisfying
`expiry_time = upload_time + 24h`, access at `upload_time + 25h` gives
`Expired` and access at `upload_time + 23h` (object present) succeeds. -/
theorem get_file_resolution_amended (st : SState) (now : Nat) (file_id : String) :
    (alookup st.file_metadata (baseIdOf file_id) = none →
      get_file st now file_id = .error .fileNotFound) ∧
    (∀ md, alookup st.file_metadata (baseIdOf file_id) = some md →
      (get_file st now file_id = .error .fileExpired ↔ now > md.expiry_time)) ∧
    (∀ md, alookup st.file_metadata (baseIdOf file_id) = some md →
      ¬ now > md.expiry_time →
      alookup st.uploadFS (baseIdOf file_id ++ md.extension) = none →
      get_file st now file_id = .error .fileNotFound) ∧
    (∀ md data, alookup st.file_metadata (baseIdOf file_id) = some md →
      ¬ now > md.expiry_time →
      alookup st.uploadFS (baseIdOf file_id ++ md.extension) = some data →
      get_file st now file_id = .ok (md, data)) ∧
    (∀ md, alookup st.file_metadata (baseIdOf file_id) = some md →
      md.expiry_time = md.upload_time + hours24 →
      (now = md.upload_time + 25 * hours1 →
        get_file st now file_id = .error .fileExpired) ∧
      (now = md.upload_time + 23 * hours1 →
        ∀ data, alookup st.uploadFS (baseIdOf file_id ++ md.extension) = some data →
          get_file st now file_id = .ok (md, data))) := by
  refine ⟨?_, ?_, ?_, ?_, ?_⟩
  · intro h
    simp [get_file, h]
  · intro md h
    simp only [get_file, h]
    by_cases he : now > md.expiry_time
    · simp [he]
    · simp only [he, if_false, iff_false]
      cases alookup st.uploadFS (baseIdOf file_id ++ md.extension) <;> simp
  · intro md h he hf
    simp [get_file, h, he, hf]
  · intro md data h he hf
    simp [get_file, h, he, hf]
  · intro md h hexp
    have h1 : hours24 = 86400000000 := rfl
    have h2 : hours1 = 3600000000 := rfl
    constructor
    · intro hnow
      have hgt : now > md.expiry_time := by rw [hexp, hnow]; omega
      simp [get_file, h, hgt]
    · intro hnow data hf
      have hle : ¬ now > md.expiry_time := by rw [hexp, hnow]; omega
      simp [get_file, h, hle, hf]

/-- Witness for C5 (amended): a record uploaded at time 0 with expiry
24h is `Expired` at 25h and served at 23h, through
`get_file_resolution_amended`. -/
theorem get_file_resolution_amended_witness :
    get_file ⟨[], [], [("abc.png", [5])],
        [("abc", ⟨"a.png", "image/png", 1, "1 Byte", 0, hours24, ".png"⟩)]⟩
        (25 * hours1) "abc.png" = .error .fileExpired ∧
    get_file ⟨[], [], [("abc.png", [5])],
        [("abc", ⟨"a.png", "image/png", 1, "1 Byte", 0, hours24, ".png"⟩)]⟩
        (23 * hours1) "abc.png" =
      .ok (⟨"a.png", "image/png", 1, "1 Byte", 0, hours24, ".png"⟩, [5]) :=
  ⟨(((get_file_resolution_amended
        ⟨[], [], [("abc.png", [5])],
          [("abc", ⟨"a.png", "image/png", 1, "1 Byte", 0, hours24, ".png"⟩)]⟩
        (25 * hours1) "abc.png").2.2.2.2
      ⟨"a.png", "image/png", 1, "1 Byte", 0, hours24, ".png"⟩ rfl rfl).1 (by decide)),
    (((get_file_resolution_amended
        ⟨[], [], [("abc.png", [5])],
          [("abc", ⟨"a.png", "image/png", 1, "1 Byte", 0, hours24, ".png"⟩)]⟩
        (23 * hours1) "abc.png").2.2.2.2
      ⟨"a.png", "image/png", 1, "1 Byte", 0, hours24, ".png"⟩ rfl rfl).2 (by decide)
      [5] rfl)⟩

/-! ## Claim theorems: reassembly correctness -/

/-- The tracked chunk dict produced by recording the chunk of index `i`
at path `p i`, for the indices of `arrival` in arrival order
(`chunk_tracking[fileName][chunkIndex] = chunk_path`). -/
def buildTracking (arrival : List Nat) (p : Nat → String) : List (Nat × String) :=
  arrival.foldl (fun m i => ainsert m i (p i)) []

theorem foldl_ainsert_fresh (p : Nat → String) :
    ∀ (arrival : List Nat) (m : List (Nat × String)), arrival.Nodup →
      (∀ i ∈ arrival, alookup m i = none) →
      arrival.foldl (fun m i => ainsert m i (p i)) m =
        m ++ arrival.map (fun i => (i, p i))
  | [], m, _, _ => by simp
  | a :: t, m, hnd, hfresh => by
    have ha : alookup m a = none := hfresh a (List.mem_cons_self a t)
    have hstep : ainsert m a (p a) = m ++ [(a, p a)] := ainsert_of_none m a (p a) ha
    have hnd' : t.Nodup := (List.nodup_cons.mp hnd).2
    have hna : a ∉ t := (List.nodup_cons.mp hnd).1
    have hfresh' : ∀ i ∈ t, alookup (m ++ [(a, p a)]) i = none := by
      intro i hi
      rw [alookup_append]
      have h1 : alookup m i = none := hfresh i (List.mem_cons_of_mem a hi)
      have h2 : i ≠ a := fun hia => hna (hia ▸ hi)
      simp [h1, h2]
    calc (a :: t).foldl (fun m i => ainsert m i (p i)) m
        = t.foldl (fun m i => ainsert m i (p i)) (m ++ [(a, p a)]) := by
          simp [List.foldl_cons, hstep]
      _ = (m ++ [(a, p a)]) ++ t.map (fun i => (i, p i)) :=
          foldl_ainsert_fresh p t (m ++ [(a, p a)]) hnd' hfresh'
      _ = m ++ (a :: t).map (fun i => (i, p i)) := by simp

theorem buildTracking_eq_map (arrival : List Nat) (p : Nat → String)
    (hnd : arrival.Nodup) :
    buildTracking arrival p = arrival.map (fun i => (i, p i)) := by
  have := foldl_ainsert_fresh p arrival [] hnd (by intro i _; rfl)
  simpa [buildTracking] using this

theorem alookup_map_keyed (p : Nat → String) :
    ∀ (l : List Nat) (i : Nat), i ∈ l →
      alookup (l.map (fun j => (j, p j))) i = some (p i)
  | [], i, hi => absurd hi (List.not_mem_nil i)
  | a :: t, i, hi => by
    by_cases h : i = a
    · simp [h]
    · have : i ∈ t := (List.mem_cons.mp hi).resolve_left h
      simp [h, alookup_map_keyed p t i this]

theorem alookup_map_pathkeyed (p : Nat → String) (c : Nat → Bytes) :
    ∀ (l : List Nat) (i : Nat), i ∈ l →
      (∀ j ∈ l, p j = p i → j = i) →
      alookup (l.map (fun j => (p j, c j))) (p i) = some (c i)
  | [], i, hi, _ => absurd hi (List.not_mem_nil i)
  | a :: t, i, hi, hinj => by
    by_cases h : p i = p a
    · have ha : a = i := hinj a (List.mem_cons_self a t) h.symm
      simp [ha]
    · have hia : i ≠ a := fun hie => h (hie ▸ rfl)
      have hit : i ∈ t := (List.mem_cons.mp hi).resolve_left hia
      have hinj' : ∀ j ∈ t, p j = p i → j = i := fun j hj =>
        hinj j (List.mem_cons_of_mem a hj)
      simp [h, alookup_map_pathkeyed p c t i hit hinj']

theorem combineChunks_correct (p : Nat → String) (c : Nat → Bytes) :
    ∀ (idxs : List Nat) (chunks : List (Nat × String))
      (fs : List (String × Bytes)) (acc : Bytes),
      idxs.Nodup →
      (∀ i ∈ idxs, alookup chunks i = some (p i)) →
      (∀ i ∈ idxs, alookup fs (p i) = some (c i)) →
      (∀ i ∈ idxs, ∀ j ∈ idxs, p i = p j → i = j) →
      (combineChunks idxs chunks fs acc).1 = true ∧
        (combineChunks idxs chunks fs acc).2.1 = acc ++ (idxs.map c).flatten
  | [], chunks, fs, acc, _, _, _, _ => by simp [combineChunks]
  | i :: rest, chunks, fs, acc, hnd, hch, hfs, hinj => by
    have hchi : alookup chunks i = some (p i) := hch i (List.mem_cons_self i rest)
    have hfsi : alookup fs (p i) = some (c i) := hfs i (List.mem_cons_self i rest)
    have hnd' : rest.Nodup := (List.nodup_cons.mp hnd).2
    have hni : i ∉ rest := (List.nodup_cons.mp hnd).1
    have hch' : ∀ j ∈ rest, alookup chunks j = some (p j) := fun j hj =>
      hch j (List.mem_cons_of_mem i hj)
    have hfs' : ∀ j ∈ rest, alookup (aerase fs (p i)) (p j) = some (c j) := by
      intro j hj
      have hji : j ≠ i := fun hje => hni (hje ▸ hj)
      have hpji : p j ≠ p i := fun hpe =>
        hji (hinj j (List.mem_cons_of_mem i hj) i (List.mem_cons_self i rest) hpe)
      rw [alookup_aerase_ne fs (p i) (p j) hpji]
      exact hfs j (List.mem_cons_of_mem i hj)
    have hinj' : ∀ a ∈ rest, ∀ b ∈ rest, p a = p b → a = b := fun a ha b hb =>
      hinj a (List.mem_cons_of_mem i ha) b (List.mem_cons_of_mem i hb)
    have ih := combineChunks_correct p c rest chunks (aerase fs (p i)) (acc ++ c i)
      hnd' hch' hfs' hinj'
    simp only [combineChunks, hchi, hfsi]
    refine ⟨ih.1, ?_⟩
    rw [ih.2]
    simp

/-- C1: confirmed.  For a session whose chunks of indices `0..N-1`
arrived in an arbitrary order (`arrival` is any permutation of
`0..N-1`), with each chunk `i` recorded at its own path `p i` holding
bytes `c i`, `complete_upload` succeeds and the assembled object stored
under `{fresh}{ext}` is exactly `c 0 ++ c 1 ++ … ++ c (N-1)`: the
concatenation in ascending index order, independent of arrival order. -/
theorem reassembly_ascending_order (N : Nat) (c : Nat → Bytes) (p : Nat → String)
    (hinj : ∀ i < N, ∀ j < N, p i = p j → i = j)
    (arrival : List Nat) (hperm : arrival.Perm (List.range N))
    (fileName fresh : String) (t1 t2 : Nat) (mime human : String)
    (uploadFS0 : List (String × Bytes)) (meta0 : List (String × FileRecordT)) :
    (complete_upload ⟨[(fileName, buildTracking arrival p)],
        (List.range N).map (fun i => (p i, c i)), uploadFS0, meta0⟩
        fresh t1 t2 mime human fileName N).2 = .ok fresh ∧
    alookup (complete_upload ⟨[(fileName, buildTracking arrival p)],
        (List.range N).map (fun i => (p i, c i)), uploadFS0, meta0⟩
        fresh t1 t2 mime human fileName N).1.uploadFS
      (fresh ++ suffixLower fileName) = some ((List.range N).map c).flatten := by
  have hndr : (List.range N).Nodup := List.nodup_range N
  have hnd : arrival.Nodup := hperm.nodup_iff.mpr hndr
  have hbt : buildTracking arrival p = arrival.map (fun i => (i, p i)) :=
    buildTracking_eq_map arrival p hnd
  have hlen : (buildTracking arrival p).length = N := by
    rw [hbt, List.length_map, hperm.length_eq, List.length_range]
  have hch : ∀ i ∈ List.range N, alookup (buildTracking arrival p) i = some (p i) := by
    intro i hi
    rw [hbt]
    exact alookup_map_keyed p arrival i (hperm.mem_iff.mpr hi)
  have hfs : ∀ i ∈ List.range N,
      alookup ((List.range N).map (fun j => (p j, c j))) (p i) = some (c i) := by
    intro i hi
    refine alookup_map_pathkeyed p c (List.range N) i hi ?_
    intro j hj hpj
    exact hinj j (List.mem_range.mp hj) i (List.mem_range.mp hi) hpj
  have hinj' : ∀ i ∈ List.range N, ∀ j ∈ List.range N, p i = p j → i = j := by
    intro i hi j hj hpij
    exact hinj i (List.mem_range.mp hi) j (List.mem_range.mp hj) hpij
  have hcomb := combineChunks_correct p c (List.range N) (buildTracking arrival p)
    ((List.range N).map (fun j => (p j, c j))) [] hndr hch hfs hinj'
  unfold complete_upload
  have hlook : alookup [(fileName, buildTracking arrival p)] fileName =
      some (buildTracking arrival p) := by simp
  simp only [hlook]
  rw [if_neg (not_not_intro hlen)]
  rw [if_pos hcomb.1]
  refine ⟨rfl, ?_⟩
  rw [alookup_ainsert_self, hcomb.2]
  simp

/-- Witness for C1: the spec scenario shape — three chunks arriving in
order `[1, 0, 2]` — assembles to chunk0 ‖ chunk1 ‖ chunk2. -/
theorem reassembly_ascending_order_witness :
    (complete_upload ⟨[("a.png", buildTracking [1, 0, 2]
          (fun i => "chunks/AbCdEf_" ++ Nat.repr i ++ ".png"))],
        (List.range 3).map (fun i =>
          ("chunks/AbCdEf_" ++ Nat.repr i ++ ".png", [100 + i])), [], []⟩
        "QqWwEe" 5 6 "image/png" "3 Bytes" "a.png" 3).2 = .ok "QqWwEe" ∧
    alookup (complete_upload ⟨[("a.png", buildTracking [1, 0, 2]
          (fun i => "chunks/AbCdEf_" ++ Nat.repr i ++ ".png"))],
        (List.range 3).map (fun i =>
          ("chunks/AbCdEf_" ++ Nat.repr i ++ ".png", [100 + i])), [], []⟩
        "QqWwEe" 5 6 "image/png" "3 Bytes" "a.png" 3).1.uploadFS
      ("QqWwEe" ++ suffixLower "a.png") =
      some ((List.range 3).map (fun i => ([100 + i] : Bytes))).flatten :=
  reassembly_ascending_order 3 (fun i => [100 + i])
    (fun i => "chunks/AbCdEf_" ++ Nat.repr i ++ ".png")
    (by decide) [1, 0, 2] (by decide) "a.png" "QqWwEe" 5 6 "image/png" "3 Bytes" [] []

/-! ## ExpiryReaper: one cycle of `cleanup_expired_files`

The reaper state is the view of the world one cycle touches: the
uploads directory, the metadata store, and the chunk directory seen as
file name → last-modified time (the sweep only reads `st_mtime`).  A
cycle returns the new state together with the list of metadata snapshots
persisted during the cycle (`save_metadata()` is called exactly once,
after the deletion batch). -/

structure ReaperState where
  uploadFS : List (String × Bytes)
  file_metadata : List (String × FileRecordT)
  chunkMtimes : List (String × Nat)
deriving DecidableEq

/-- The loop body for one expired id: delete the backing object if it
exists (`unlink` guarded by `exists()`, so an already-missing file is
tolerated) and delete the metadata entry.  Ids are drawn from the
store's own keys, so the lookup cannot miss within a cycle; the `none`
branch keeps the state. -/
def reapOne (st : ReaperState) (file_id : String) : ReaperState :=
  match alookup st.file_metadata file_id with
  | none => st
  | some md =>
    { st with uploadFS := aerase st.uploadFS (file_id ++ md.extension),
              file_metadata := aerase st.file_metadata file_id }

/-- The ids collected by the cycle's list comprehension: every record
with `now > expiry_time`. -/
def expiredIds (meta : List (String × FileRecordT)) (now : Nat) : List String :=
  (meta.filter (fun kv => decide (now > kv.2.expiry_time))).map Prod.fst

/-- The orphan-chunk sweep: keep a chunk file unless
`st_mtime < (now - timedelta(hours=24)).timestamp()` (the subtraction is
on the real timeline, hence computed in `Int`). -/
def chunkSweep (now : Nat) (l : List (String × Nat)) : List (String × Nat) :=
  l.filter (fun cf => decide (¬ ((cf.2 : Int) < (now : Int) - (hours24 : Int))))

/-- One cycle of `cleanup_expired_files` (without the `sleep`): collect
the ids with `now > expiry_time`, reap each, persist the store once
(`save_metadata()` sits after the deletion loop), then sweep stale chunk
files. -/
def cleanup_cycle (st : ReaperState) (now : Nat) :
    ReaperState × List (List (String × FileRecordT)) :=
  let st1 := (expiredIds st.file_metadata now).foldl reapOne st
  (⟨st1.uploadFS, st1.file_metadata, chunkSweep now st1.chunkMtimes⟩,
    [st1.file_metadata])

theorem mem_of_alookup_eq_some {l : List (α × β)} {k : α} {v : β}
    (h : alookup l k = some v) : (k, v) ∈ l := by
  induction l with
  | nil => simp at h
  | cons kv t ih =>
    obtain ⟨k', v'⟩ := kv
    by_cases hk : k = k'
    · rw [alookup_cons, if_pos hk] at h
      injection h with h'
      rw [hk, ← h']
      exact List.mem_cons_self _ _
    · rw [alookup_cons, if_neg hk] at h
      exact List.mem_cons_of_mem _ (ih h)

theorem reapOne_meta_none (st : ReaperState) (fid k : String)
    (h : alookup st.file_metadata k = none) :
    alookup (reapOne st fid).file_metadata k = none := by
  unfold reapOne
  cases alookup st.file_metadata fid with
  | none => exact h
  | some md => exact alookup_aerase_of_none _ _ _ h

theorem foldl_reapOne_meta_none :
    ∀ (ids : List String) (st : ReaperState) (k : String),
      alookup st.file_metadata k = none →
      alookup ((ids.foldl reapOne st).file_metadata) k = none
  | [], _, _, h => h
  | a :: t, st, k, h =>
    foldl_reapOne_meta_none t (reapOne st a) k (reapOne_meta_none st a k h)

theorem foldl_reapOne_meta_of_mem :
    ∀ (ids : List String) (st : ReaperState) (k : String), k ∈ ids →
      alookup ((ids.foldl reapOne st).file_metadata) k = none
  | [], _, k, h => absurd h (List.not_mem_nil k)
  | a :: t, st, k, h => by
    by_cases hk : k = a
    · subst hk
      have hafter : alookup (reapOne st k).file_metadata k = none := by
        unfold reapOne
        cases hm : alookup st.file_metadata k with
        | none => exact hm
        | some md => exact alookup_aerase_self _ _
      exact foldl_reapOne_meta_none t (reapOne st k) k hafter
    · have hkt : k ∈ t := (List.mem_cons.mp h).resolve_left hk
      exact foldl_reapOne_meta_of_mem t (reapOne st a) k hkt

theorem reapOne_meta_ne (st : ReaperState) (fid k : String) (h : k ≠ fid) :
    alookup (reapOne st fid).file_metadata k = alookup st.file_metadata k := by
  unfold reapOne
  cases alookup st.file_metadata fid with
  | none => rfl
  | some md => exact alookup_aerase_ne _ _ _ h

theorem reapOne_upload_none (st : ReaperState) (fid k : String)
    (h : alookup st.uploadFS k = none) :
    alookup (reapOne st fid).uploadFS k = none := by
  unfold reapOne
  cases alookup st.file_metadata fid with
  | none => exact h
  | some md => exact alookup_aerase_of_none _ _ _ h

theorem foldl_reapOne_upload_none :
    ∀ (ids : List String) (st : ReaperState) (k : String),
      alookup st.uploadFS k = none →
      alookup ((ids.foldl reapOne st).uploadFS) k = none
  | [], _, _, h => h
  | a :: t, st, k, h =>
    foldl_reapOne_upload_none t (reapOne st a) k (reapOne_upload_none st a k h)

theorem foldl_reapOne_upload_erased :
    ∀ (ids : List String) (st : ReaperState) (fid : String) (md : FileRecordT),
      fid ∈ ids → alookup st.file_metadata fid = some md →
      alookup ((ids.foldl reapOne st).uploadFS) (fid ++ md.extension) = none
  | [], _, fid, _, h, _ => absurd h (List.not_mem_nil fid)
  | a :: t, st, fid, md, h, hmd => by
    by_cases hk : fid = a
    · subst hk
      have hafter : alookup (reapOne st fid).uploadFS (fid ++ md.extension) = none := by
        unfold reapOne
        rw [hmd]
        exact alookup_aerase_self _ _
      exact foldl_reapOne_upload_none t (reapOne st fid) _ hafter
    · have hft : fid ∈ t := (List.mem_cons.mp h).resolve_left hk
      have hmd' : alookup (reapOne st a).file_metadata fid = some md := by
        rw [reapOne_meta_ne st a fid hk]; exact hmd
      exact foldl_reapOne_upload_erased t (reapOne st a) fid md hft hmd'

theorem mem_meta_of_mem_reapOne {st : ReaperState} {fid : String}
    {kv : String × FileRecordT} (h : kv ∈ (reapOne st fid).file_metadata) :
    kv ∈ st.file_metadata := by
  unfold reapOne at h
  cases hm : alookup st.file_metadata fid with
  | none => rw [hm] at h; exact h
  | some md => rw [hm] at h; exact mem_of_mem_aerase h

theorem mem_meta_of_mem_foldl_reapOne :
    ∀ {ids : List String} {st : ReaperState} {kv : String × FileRecordT},
      kv ∈ ((ids.foldl reapOne st).file_metadata) → kv ∈ st.file_metadata := by
  intro ids
  induction ids with
  | nil => intro st kv h; exact h
  | cons a t ih => intro st kv h; exact mem_meta_of_mem_reapOne (ih h)

/-- C9: confirmed.  For any record whose expiry time lies before `now`,
one reaper cycle removes its backing object from the uploads directory
(tolerating an already-missing file) and its entry from the metadata
store, and persists the store exactly once, after the batch; running the
cycle again on the resulting state at the same instant changes nothing
and persists the identical snapshot again. -/
theorem chunkSweep_idem (now : Nat) (l : List (String × Nat)) :
    chunkSweep now (chunkSweep now l) = chunkSweep now l := by
  unfold chunkSweep
  apply List.filter_eq_self.mpr
  intro a ha
  exact (List.mem_filter.mp ha).2

theorem reaper_reclaims_and_idempotent (st : ReaperState) (now : Nat)
    (fid : String) (md : FileRecordT)
    (hmd : alookup st.file_metadata fid = some md)
    (hexp : now > md.expiry_time) :
    alookup (cleanup_cycle st now).1.file_metadata fid = none ∧
    alookup (cleanup_cycle st now).1.uploadFS (fid ++ md.extension) = none ∧
    (cleanup_cycle st now).2 = [(cleanup_cycle st now).1.file_metadata] ∧
    cleanup_cycle (cleanup_cycle st now).1 now =
      ((cleanup_cycle st now).1, [(cleanup_cycle st now).1.file_metadata]) := by
  have hmem : (fid, md) ∈ st.file_metadata := mem_of_alookup_eq_some hmd
  have hmemf : (fid, md) ∈ st.file_metadata.filter
      (fun kv => decide (now > kv.2.expiry_time)) :=
    List.mem_filter.mpr ⟨hmem, by simpa using hexp⟩
  have hfid : fid ∈ expiredIds st.file_metadata now := by
    unfold expiredIds
    exact List.mem_map.mpr ⟨(fid, md), hmemf, rfl⟩
  dsimp only [cleanup_cycle]
  refine ⟨?_, ?_, rfl, ?_⟩
  · exact foldl_reapOne_meta_of_mem _ st fid hfid
  · exact foldl_reapOne_upload_erased _ st fid md hfid hmd
  · -- Second cycle: no record of the post-cycle store is still expired,
    -- so the reap loop is a no-op, and the chunk sweep is idempotent.
    generalize hst1 : (expiredIds st.file_metadata now).foldl reapOne st = st1
    have hnoexp : ∀ kv ∈ st1.file_metadata, ¬ now > kv.2.expiry_time := by
      intro kv hkv hgt
      rw [← hst1] at hkv
      have hkv' : kv ∈ st.file_metadata := mem_meta_of_mem_foldl_reapOne hkv
      have hkvf : kv ∈ st.file_metadata.filter
          (fun x => decide (now > x.2.expiry_time)) :=
        List.mem_filter.mpr ⟨hkv', by simpa using hgt⟩
      have hkfid : kv.1 ∈ expiredIds st.file_metadata now := by
        unfold expiredIds
        exact List.mem_map.mpr ⟨kv, hkvf, rfl⟩
      have hnone := foldl_reapOne_meta_of_mem (expiredIds st.file_metadata now)
        st kv.1 hkfid
      have hsome : (alookup ((expiredIds st.file_metadata now).foldl
          reapOne st).file_metadata kv.1).isSome := by
        obtain ⟨k, v⟩ := kv
        exact alookup_isSome_of_mem hkv
      rw [hnone] at hsome
      simp at hsome
    have hfilter : st1.file_metadata.filter
        (fun kv => decide (now > kv.2.expiry_time)) = [] :=
      List.filter_eq_nil_iff.mpr (by intro a ha; simpa using hnoexp a ha)
    have hexpIds : expiredIds st1.file_metadata now = [] := by
      unfold expiredIds
      rw [hfilter]
      rfl
    rw [hexpIds]
    simp only [List.foldl_nil]
    rw [chunkSweep_idem]

/-- Witness for C9: a store holding one record expired one microsecond
ago is reclaimed by one cycle, the snapshot is persisted once, and a
second cycle is a no-op. -/
theorem reaper_reclaims_and_idempotent_witness :
    alookup (cleanup_cycle ⟨[("abc.png", [5])],
        [("abc", ⟨"a.png", "image/png", 1, "1 Byte", 0, hours24, ".png"⟩)],
        [("chunks/old_0.png", 0)]⟩ (hours24 + 1)).1.file_metadata "abc" = none ∧
    alookup (cleanup_cycle ⟨[("abc.png", [5])],
        [("abc", ⟨"a.png", "image/png", 1, "1 Byte", 0, hours24, ".png"⟩)],
        [("chunks/old_0.png", 0)]⟩ (hours24 + 1)).1.uploadFS
      ("abc" ++ FileRecordT.extension
        ⟨"a.png", "image/png", 1, "1 Byte", 0, hours24, ".png"⟩) = none ∧
    (cleanup_cycle ⟨[("abc.png", [5])],
        [("abc", ⟨"a.png", "image/png", 1, "1 Byte", 0, hours24, ".png"⟩)],
        [("chunks/old_0.png", 0)]⟩ (hours24 + 1)).2 =
      [(cleanup_cycle ⟨[("abc.png", [5])],
        [("abc", ⟨"a.png", "image/png", 1, "1 Byte", 0, hours24, ".png"⟩)],
        [("chunks/old_0.png", 0)]⟩ (hours24 + 1)).1.file_metadata] ∧
    cleanup_cycle (cleanup_cycle ⟨[("abc.png", [5])],
        [("abc", ⟨"a.png", "image/png", 1, "1 Byte", 0, hours24, ".png"⟩)],
        [("chunks/old_0.png", 0)]⟩ (hours24 + 1)).1 (hours24 + 1) =
      ((cleanup_cycle ⟨[("abc.png", [5])],
        [("abc", ⟨"a.png", "image/png", 1, "1 Byte", 0, hours24, ".png"⟩)],
        [("chunks/old_0.png", 0)]⟩ (hours24 + 1)).1,
       [(cleanup_cycle ⟨[("abc.png", [5])],
        [("abc", ⟨"a.png", "image/png", 1, "1 Byte", 0, hours24, ".png"⟩)],
        [("chunks/old_0.png", 0)]⟩ (hours24 + 1)).1.file_metadata]) :=
  reaper_reclaims_and_idempotent
    ⟨[("abc.png", [5])],
      [("abc", ⟨"a.png", "image/png", 1, "1 Byte", 0, hours24, ".png"⟩)],
      [("chunks/old_0.png", 0)]⟩ (hours24 + 1)
    "abc" ⟨"a.png", "image/png", 1, "1 Byte", 0, hours24, ".png"⟩
    rfl (by decide)

/-! ## MetadataStore persistence: `save_metadata` / `load_metadata`

`json.dump(file_metadata, f, cls=DateTimeEncoder)` turns each
`datetime` value into its `isoformat()` string; `json.load(f,
cls=DateTimeDecoder)` turns the string back through
`datetime.fromisoformat` for the keys `upload_time` and `expiry_time`
(keeping the string on `ValueError`).  The file itself is a faithful
channel (the bytes written are the bytes read), so the durable document
is modelled directly.  `datetime.now()` yields naive datetimes, so no
timezone component is involved.

Calendar datetimes are embedded componentwise; `isoformat` emits
`YYYY-MM-DDTHH:MM:SS[.ffffff]` (the fractional part only when
`microsecond ≠ 0`), and `fromisoformat` is modelled on exactly that
grammar — the fragment of its domain the decoder meets. -/

structure DateTime where
  year : Nat
  month : Nat
  day : Nat
  hour : Nat
  minute : Nat
  second : Nat
  microsecond : Nat
deriving DecidableEq

/-- The field ranges enforced by the `datetime` constructor
(`MINYEAR = 1`, `MAXYEAR = 9999`); every `datetime` value satisfies
them. -/
def DateTime.valid (d : DateTime) : Prop :=
  1 ≤ d.year ∧ d.year ≤ 9999 ∧ 1 ≤ d.month ∧ d.month ≤ 12 ∧
  1 ≤ d.day ∧ d.day ≤ 31 ∧ d.hour ≤ 23 ∧ d.minute ≤ 59 ∧
  d.second ≤ 59 ∧ d.microsecond ≤ 999999

instance (d : DateTime) : Decidable d.valid := by
  unfold DateTime.valid
  infer_instance

def natDigitChar : Nat → Char
  | 0 => '0'
  | 1 => '1'
  | 2 => '2'
  | 3 => '3'
  | 4 => '4'
  | 5 => '5'
  | 6 => '6'
  | 7 => '7'
  | 8 => '8'
  | 9 => '9'
  | _ => '0'

def digitVal : Char → Nat
  | '0' => 0
  | '1' => 1
  | '2' => 2
  | '3' => 3
  | '4' => 4
  | '5' => 5
  | '6' => 6
  | '7' => 7
  | '8' => 8
  | '9' => 9
  | _ => 0

def isDigitCh : Char → Bool
  | '0' | '1' | '2' | '3' | '4' | '5' | '6' | '7' | '8' | '9' => true
  | _ => false

/-- `"%02d"` for arguments below 100 (the ranges `datetime` enforces). -/
def pad2 (n : Nat) : List Char :=
  [natDigitChar (n / 10), natDigitChar (n % 10)]

/-- `"%04d"` for arguments below 10000. -/
def pad4 (n : Nat) : List Char :=
  [natDigitChar (n / 1000), natDigitChar (n / 100 % 10),
   natDigitChar (n / 10 % 10), natDigitChar (n % 10)]

/-- `"%06d"` for arguments below 1000000. -/
def pad6 (n : Nat) : List Char :=
  [natDigitChar (n / 100000), natDigitChar (n / 10000 % 10),
   natDigitChar (n / 1000 % 10), natDigitChar (n / 100 % 10),
   natDigitChar (n / 10 % 10), natDigitChar (n % 10)]

/-- `datetime.isoformat()` for naive datetimes:
`YYYY-MM-DDTHH:MM:SS` plus `.ffffff` when the microsecond field is
non-zero. -/
def isoformatCh (d : DateTime) : List Char :=
  pad4 d.year ++ '-' :: (pad2 d.month ++ '-' :: (pad2 d.day ++
    'T' :: (pad2 d.hour ++ ':' :: (pad2 d.minute ++ ':' :: (pad2 d.second ++
      (if d.microsecond = 0 then [] else '.' :: pad6 d.microsecond))))))

def isoformat (d : DateTime) : String :=
  String.mk (isoformatCh d)

/-- Read exactly `k` decimal digits, accumulating their value. -/
def parseFixed : Nat → Nat → List Char → Option (Nat × List Char)
  | 0, acc, s => some (acc, s)
  | _ + 1, _, [] => none
  | k + 1, acc, c :: s =>
    if isDigitCh c then parseFixed k (10 * acc + digitVal c) s else none

def expectCh (c : Char) : List Char → Option (List Char)
  | [] => none
  | x :: rest => if x = c then some rest else none

/-- `datetime.fromisoformat`, modelled on the grammar `isoformat`
emits (which is all the decoder ever feeds it with). -/
def fromisoformatCh (s : List Char) : Option DateTime :=
  (parseFixed 4 0 s).bind (fun ys =>
  (expectCh '-' ys.2).bind (fun s2 =>
  (parseFixed 2 0 s2).bind (fun mos =>
  (expectCh '-' mos.2).bind (fun s4 =>
  (parseFixed 2 0 s4).bind (fun dds =>
  (expectCh 'T' dds.2).bind (fun s6 =>
  (parseFixed 2 0 s6).bind (fun hs =>
  (expectCh ':' hs.2).bind (fun s8 =>
  (parseFixed 2 0 s8).bind (fun mis =>
  (expectCh ':' mis.2).bind (fun s10 =>
  (parseFixed 2 0 s10).bind (fun ses =>
    match ses.2 with
    | [] => some ⟨ys.1, mos.1, dds.1, hs.1, mis.1, ses.1, 0⟩
    | '.' :: rest =>
      match parseFixed 6 0 rest with
      | some (us, []) => some ⟨ys.1, mos.1, dds.1, hs.1, mis.1, ses.1, us⟩
      | _ => none
    | _ => none)))))))))))

def fromisoformat (s : String) : Option DateTime :=
  fromisoformatCh s.toList

theorem digitVal_natDigitChar (n : Nat) (h : n < 10) :
    digitVal (natDigitChar n) = n := by
  interval_cases n <;> rfl

theorem isDigitCh_natDigitChar (n : Nat) (h : n < 10) :
    isDigitCh (natDigitChar n) = true := by
  interval_cases n <;> rfl

theorem parseFixed_pad2 (n : Nat) (rest : List Char) (h : n < 100) :
    parseFixed 2 0 (pad2 n ++ rest) = some (n, rest) := by
  have h1 : n / 10 < 10 := by omega
  have h2 : n % 10 < 10 := by omega
  simp [pad2, parseFixed, isDigitCh_natDigitChar _ h1, isDigitCh_natDigitChar _ h2,
    digitVal_natDigitChar _ h1, digitVal_natDigitChar _ h2]
  omega

theorem parseFixed_pad4 (n : Nat) (rest : List Char) (h : n < 10000) :
    parseFixed 4 0 (pad4 n ++ rest) = some (n, rest) := by
  have h1 : n / 1000 < 10 := by omega
  have h2 : n / 100 % 10 < 10 := by omega
  have h3 : n / 10 % 10 < 10 := by omega
  have h4 : n % 10 < 10 := by omega
  simp [pad4, parseFixed, isDigitCh_natDigitChar _ h1, isDigitCh_natDigitChar _ h2,
    isDigitCh_natDigitChar _ h3, isDigitCh_natDigitChar _ h4,
    digitVal_natDigitChar _ h1, digitVal_natDigitChar _ h2,
    digitVal_natDigitChar _ h3, digitVal_natDigitChar _ h4]
  omega

theorem parseFixed_pad6 (n : Nat) (rest : List Char) (h : n < 1000000) :
    parseFixed 6 0 (pad6 n ++ rest) = some (n, rest) := by
  have h1 : n / 100000 < 10 := by omega
  have h2 : n / 10000 % 10 < 10 := by omega
  have h3 : n / 1000 % 10 < 10 := by omega
  have h4 : n / 100 % 10 < 10 := by omega
  have h5 : n / 10 % 10 < 10 := by omega
  have h6 : n % 10 < 10 := by omega
  simp [pad6, parseFixed, isDigitCh_natDigitChar _ h1, isDigitCh_natDigitChar _ h2,
    isDigitCh_natDigitChar _ h3, isDigitCh_natDigitChar _ h4,
    isDigitCh_natDigitChar _ h5, isDigitCh_natDigitChar _ h6,
    digitVal_natDigitChar _ h1, digitVal_natDigitChar _ h2,
    digitVal_natDigitChar _ h3, digitVal_natDigitChar _ h4,
    digitVal_natDigitChar _ h5, digitVal_natDigitChar _ h6]
  omega

theorem expectCh_cons_self (c : Char) (rest : List Char) :
    expectCh c (c :: rest) = some rest := by
  simp [expectCh]

theorem parseFixed_pad2_nil (n : Nat) (h : n < 100) :
    parseFixed 2 0 (pad2 n) = some (n, []) := by
  have := parseFixed_pad2 n [] h
  simpa using this

theorem parseFixed_pad6_nil (n : Nat) (h : n < 1000000) :
    parseFixed 6 0 (pad6 n) = some (n, []) := by
  have := parseFixed_pad6 n [] h
  simpa using this

/-- A valid datetime round-trips exactly through the durable encoding. -/
theorem fromisoformatCh_isoformatCh (d : DateTime) (h : d.valid) :
    fromisoformatCh (isoformatCh d) = some d := by
  obtain ⟨y, mo, dd, hh, mi, se, us⟩ := d
  obtain ⟨hy1, hy2, hm1, hm2, hd1, hd2, hhh, hmi, hse, hus⟩ := h
  dsimp only at hy1 hy2 hm1 hm2 hd1 hd2 hhh hmi hse hus
  have by4 : y < 10000 := by omega
  have bmo : mo < 100 := by omega
  have bdd : dd < 100 := by omega
  have bhh : hh < 100 := by omega
  have bmi : mi < 100 := by omega
  have bse : se < 100 := by omega
  have bus : us < 1000000 := by omega
  by_cases hz : us = 0
  · subst hz
    simp [isoformatCh, fromisoformatCh,
      parseFixed_pad4 _ _ by4, parseFixed_pad2 _ _ bmo, parseFixed_pad2 _ _ bdd,
      parseFixed_pad2 _ _ bhh, parseFixed_pad2 _ _ bmi, parseFixed_pad2 _ _ bse,
      parseFixed_pad2_nil _ bse, expectCh_cons_self]
  · simp [isoformatCh, fromisoformatCh, hz,
      parseFixed_pad4 _ _ by4, parseFixed_pad2 _ _ bmo, parseFixed_pad2 _ _ bdd,
      parseFixed_pad2 _ _ bhh, parseFixed_pad2 _ _ bmi, parseFixed_pad2 _ _ bse,
      parseFixed_pad6 _ _ bus, parseFixed_pad6_nil _ bus, expectCh_cons_self]

theorem toList_mk (l : List Char) : (String.mk l).toList = l := rfl

/-- A JSON value of the metadata document: Python records are dicts
whose values are strings, numbers, or (in memory) datetimes. -/
inductive JVal where
  | str : String → JVal
  | num : Nat → JVal
  | dt : DateTime → JVal
deriving DecidableEq

/-- `DateTimeEncoder.default`, applied by `json.dump` to every value it
cannot serialise natively: a datetime becomes its isoformat string. -/
def encVal : JVal → JVal
  | .dt d => .str (isoformat d)
  | v => v

/-- The keys `DateTimeDecoder.object_hook` rewrites. -/
def timeKeys : List String := ["upload_time", "expiry_time"]

/-- `DateTimeDecoder.object_hook` on one key/value pair: a string value
under `upload_time`/`expiry_time` is parsed with
`datetime.fromisoformat`, keeping the string on `ValueError`. -/
def decKV : String × JVal → String × JVal
  | (k, .str s) =>
    if k ∈ timeKeys then
      match fromisoformat s with
      | some d => (k, .dt d)
      | none => (k, .str s)
    else (k, .str s)
  | kv => kv

def encodeRecord (r : List (String × JVal)) : List (String × JVal) :=
  r.map (fun kv => (kv.1, encVal kv.2))

def decodeRecord (r : List (String × JVal)) : List (String × JVal) :=
  r.map decKV

/-- `save_metadata` without the file I/O: the durable document
`json.dump` produces (the bytes written are the bytes later read). -/
def save_metadata (m : List (String × List (String × JVal))) :
    List (String × List (String × JVal)) :=
  m.map (fun kv => (kv.1, encodeRecord kv.2))

/-- `load_metadata` without the file I/O: `json.load` with
`DateTimeDecoder` applied to the durable document. -/
def load_metadata (m : List (String × List (String × JVal))) :
    List (String × List (String × JVal)) :=
  m.map (fun kv => (kv.1, decodeRecord kv.2))

/-- The shape of every record `complete_upload` builds: the two time
keys hold (valid, naive) datetimes, datetimes appear only under the time
keys, and plain strings never sit under a time key. -/
def entryWF : String × JVal → Prop
  | (k, .dt d) => d.valid ∧ k ∈ timeKeys
  | (k, .str _) => k ∉ timeKeys
  | (_, .num _) => True

instance (kv : String × JVal) : Decidable (entryWF kv) :=
  match kv with
  | (k, .str _) => inferInstanceAs (Decidable (k ∉ timeKeys))
  | (_, .num _) => inferInstanceAs (Decidable True)
  | (_, .dt _) => inferInstanceAs (Decidable (_ ∧ _))

def recordWF (r : List (String × JVal)) : Prop :=
  ∀ kv ∈ r, entryWF kv

instance (r : List (String × JVal)) : Decidable (recordWF r) :=
  inferInstanceAs (Decidable (∀ kv ∈ r, entryWF kv))

theorem decKV_encVal (kv : String × JVal) (h : entryWF kv) :
    decKV (kv.1, encVal kv.2) = kv := by
  obtain ⟨k, v⟩ := kv
  cases v with
  | str s =>
    have hk : k ∉ timeKeys := h
    simp [encVal, decKV, hk]
  | num n => simp [encVal, decKV]
  | dt d =>
    have hd : d.valid ∧ k ∈ timeKeys := h
    have hrt : fromisoformat (isoformat d) = some d := by
      unfold fromisoformat isoformat
      rw [toList_mk]
      exact fromisoformatCh_isoformatCh d hd.1
    simp [encVal, decKV, hd.2, hrt]

theorem decodeRecord_encodeRecord (r : List (String × JVal)) (h : recordWF r) :
    decodeRecord (encodeRecord r) = r := by
  induction r with
  | nil => rfl
  | cons kv t ih =>
    have hkv : entryWF kv := h kv (List.mem_cons_self kv t)
    have ht : recordWF t := fun e he => h e (List.mem_cons_of_mem kv he)
    simp only [encodeRecord, decodeRecord, List.map_cons] at ih ⊢
    rw [decKV_encVal kv hkv, ih ht]

/-- C8: confirmed.  For any store whose records have the shape
`complete_upload` creates (datetimes exactly under `upload_time` and
`expiry_time`), serialising with `DateTimeEncoder` and re-loading with
`DateTimeDecoder` reproduces the records identically — the timestamps,
naive and microsecond-exact, included. -/
theorem metadata_roundtrip (m : List (String × List (String × JVal)))
    (h : ∀ e ∈ m, recordWF e.2) :
    load_metadata (save_metadata m) = m := by
  induction m with
  | nil => rfl
  | cons e t ih =>
    have he : recordWF e.2 := h e (List.mem_cons_self e t)
    have ht : ∀ x ∈ t, recordWF x.2 := fun x hx => h x (List.mem_cons_of_mem e hx)
    simp only [save_metadata, load_metadata, List.map_cons] at ih ⊢
    rw [decodeRecord_encodeRecord e.2 he, ih ht]

/-- Witness for C8: a two-record store — one timestamp with a non-zero
microsecond field, one without — survives the round trip unchanged. -/
theorem metadata_roundtrip_witness :
    load_metadata (save_metadata
      [("abc123", [("original_name", .str "a.png"), ("mime_type", .str "image/png"),
        ("size", .num 3584), ("human_size", .str "3.6 kB"),
        ("upload_time", .dt ⟨2025, 1, 2, 3, 4, 5, 123456⟩),
        ("expiry_time", .dt ⟨2025, 1, 3, 3, 4, 5, 123456⟩),
        ("extension", .str ".png")]),
       ("XyZ987", [("original_name", .str "v.mp4"), ("mime_type", .str "video/mp4"),
        ("size", .num 7), ("human_size", .str "7 Bytes"),
        ("upload_time", .dt ⟨2024, 12, 31, 23, 59, 59, 0⟩),
        ("expiry_time", .dt ⟨2025, 1, 1, 23, 59, 59, 0⟩),
        ("extension", .str ".mp4")])]) =
      [("abc123", [("original_name", .str "a.png"), ("mime_type", .str "image/png"),
        ("size", .num 3584), ("human_size", .str "3.6 kB"),
        ("upload_time", .dt ⟨2025, 1, 2, 3, 4, 5, 123456⟩),
        ("expiry_time", .dt ⟨2025, 1, 3, 3, 4, 5, 123456⟩),
        ("extension", .str ".png")]),
       ("XyZ987", [("original_name", .str "v.mp4"), ("mime_type", .str "video/mp4"),
        ("size", .num 7), ("human_size", .str "7 Bytes"),
        ("upload_time", .dt ⟨2024, 12, 31, 23, 59, 59, 0⟩),
        ("expiry_time", .dt ⟨2025, 1, 1, 23, 59, 59, 0⟩),
        ("extension", .str ".mp4")])] :=
  metadata_roundtrip
    [("abc123", [("original_name", .str "a.png"), ("mime_type", .str "image/png"),
      ("size", .num 3584), ("human_size", .str "3.6 kB"),
      ("upload_time", .dt ⟨2025, 1, 2, 3, 4, 5, 123456⟩),
      ("expiry_time", .dt ⟨2025, 1, 3, 3, 4, 5, 123456⟩),
      ("extension", .str ".png")]),
     ("XyZ987", [("original_name", .str "v.mp4"), ("mime_type", .str "video/mp4"),
      ("size", .num 7), ("human_size", .str "7 Bytes"),
      ("upload_time", .dt ⟨2024, 12, 31, 23, 59, 59, 0⟩),
      ("expiry_time", .dt ⟨2025, 1, 1, 23, 59, 59, 0⟩),
      ("extension", .str ".mp4")])]
    (by decide)

end KeiranHost
